import Mathlib

set_option maxHeartbeats 1000000

/-!
Shallow embedding of the HUB75 LED panel firmware
(src/firmware/src/main.cpp with configuration src/firmware/include/hub75_config.h),
instantiated at the default build configuration (DISPLAY_HEIGHT = 32, so a
128x32 panel, 16 scan rows, 6-bit colour depth).

Machine integers are modelled as Nat with explicit wrap (% 2^32 for uint32_t
and size_t, % 256 for uint8_t) at the points where the C code can overflow.
The serial byte stream is a `List Nat`; each received byte is reduced mod 256.
-/

/-! ## Configuration constants (hub75_config.h) -/

def DISPLAY_WIDTH : Nat := 128

def DISPLAY_HEIGHT : Nat := 32

def SCAN_ROWS : Nat := DISPLAY_HEIGHT / 2

def COLOR_DEPTH : Nat := 6

def FRAME_SIZE_RGB565 : Nat := DISPLAY_WIDTH * DISPLAY_HEIGHT * 2

def RECV_BUFFER_SIZE : Nat := FRAME_SIZE_RGB565 + FRAME_SIZE_RGB565 / 254 + 200

/-- Modelled from the spec: `BINARY_MAGIC_0` is referenced by main.cpp but its
definition lives in build flags outside src/; spec section 6 fixes the raw-binary
sentinel to the two bytes 0xFF, 0x00. -/
def BINARY_MAGIC_0 : Nat := 255

/-- Modelled from the spec: second raw-binary sentinel byte (see `BINARY_MAGIC_0`). -/
def BINARY_MAGIC_1 : Nat := 0

/-- uint8_t subtraction `(uint8_t)(1 - r)` used for `target = 1 - read_buf`. -/
def u8sub1 (r : Nat) : Nat := (257 - r % 256) % 256

/-- size_t subtraction `a - b` on the RP2040 (32-bit size_t), for `a < 2^32`. -/
def sub32 (a b : Nat) : Nat := (a + 2 ^ 32 - b % 2 ^ 32) % 2 ^ 32

/-! ## Base64 decoder (main.cpp lines 51-102) -/

/-- The 256-entry decode table `b64_table` from main.cpp, transcribed verbatim. -/
def b64_table : List Nat :=
  [64,64,64,64,64,64,64,64,64,64,64,64,64,64,64,64,
   64,64,64,64,64,64,64,64,64,64,64,64,64,64,64,64,
   64,64,64,64,64,64,64,64,64,64,64,62,64,64,64,63,
   52,53,54,55,56,57,58,59,60,61,64,64,64,64,64,64,
   64, 0, 1, 2, 3, 4, 5, 6, 7, 8, 9,10,11,12,13,14,
   15,16,17,18,19,20,21,22,23,24,25,64,64,64,64,64,
   64,26,27,28,29,30,31,32,33,34,35,36,37,38,39,40,
   41,42,43,44,45,46,47,48,49,50,51,64,64,64,64,64,
   64,64,64,64,64,64,64,64,64,64,64,64,64,64,64,64,
   64,64,64,64,64,64,64,64,64,64,64,64,64,64,64,64,
   64,64,64,64,64,64,64,64,64,64,64,64,64,64,64,64,
   64,64,64,64,64,64,64,64,64,64,64,64,64,64,64,64,
   64,64,64,64,64,64,64,64,64,64,64,64,64,64,64,64,
   64,64,64,64,64,64,64,64,64,64,64,64,64,64,64,64,
   64,64,64,64,64,64,64,64,64,64,64,64,64,64,64,64,
   64,64,64,64,64,64,64,64,64,64,64,64,64,64,64,64]

/-- `b64_table[c]` (all stream bytes are < 256, so `getD` never hits the default). -/
def b64val (c : Nat) : Nat := b64_table.getD c 64

/-- `base64_decode_length` from main.cpp: expected decoded size from raw length
and trailing padding, with size_t wrap on the subtraction. -/
def base64_decode_length (input : List Nat) : Nat :=
  if input.length = 0 then 0
  else
    let len := input.length
    let pad1 : Nat := if 1 ≤ len ∧ input.getD (len - 1) 0 = 61 then 1 else 0
    let pad2 : Nat := if 2 ≤ len ∧ input.getD (len - 2) 0 = 61 then 1 else 0
    sub32 (len * 3 / 4) (pad1 + pad2)

/-- Loop body of `base64_decode` from main.cpp. The returned list holds the
bytes written to `output[0], output[1], ...` in order; the Bool is true exactly
when the overflow branch (`return 0`) was taken. `accum` is the uint32_t
accumulator, `bits` the bit counter. -/
def base64_decode_go (max_output : Nat) :
    List Nat → Nat → Nat → List Nat → List Nat × Bool
  | [], _, _, out => (out, false)
  | c :: rest, accum, bits, out =>
    if c = 61 then (out, false)
    else
      let val := b64val c
      if val = 64 then base64_decode_go max_output rest accum bits out
      else
        let accum2 := ((accum <<< 6) ||| val) % 2 ^ 32
        let bits2 := bits + 6
        if 8 ≤ bits2 then
          if max_output ≤ out.length then (out, true)
          else
            base64_decode_go max_output rest accum2 (bits2 - 8)
              (out ++ [(accum2 >>> (bits2 - 8)) &&& 255])
        else base64_decode_go max_output rest accum2 bits2 out

/-- `base64_decode` from main.cpp: bytes written into the destination (starting
at offset 0) and the failure flag.  The C return value is 0 when the flag is
set and the length of the written list otherwise. -/
def base64_decode (input : List Nat) (max_output : Nat) : List Nat × Bool :=
  base64_decode_go max_output input 0 0 []

/-- The C return value of `base64_decode`: 0 on overflow, bytes written otherwise. -/
def base64_decode_ret (input : List Nat) (max_output : Nat) : Nat :=
  let r := base64_decode input max_output
  if r.2 then 0 else r.1.length

/-- Modelled from the spec: the host-side standard text encoding (4 characters
per 3 bytes over the 64-symbol alphabet, pad symbol 61 = ASCII =). The encoder
itself is not part of the firmware source; this follows spec section 4.3. -/
def b64chars : List Nat :=
  (List.range 26).map (fun k => k + 65) ++
  (List.range 26).map (fun k => k + 97) ++
  (List.range 10).map (fun k => k + 48) ++ [43, 47]

/-- Modelled from the spec: symbol for a 6-bit value (see `b64chars`). -/
def b64char (k : Nat) : Nat := b64chars.getD k 0

/-- Modelled from the spec: standard base64 encoding of a byte list. -/
def b64encode : List Nat → List Nat
  | a :: b :: c :: rest =>
    b64char (a / 4) :: b64char (a % 4 * 16 + b / 16) ::
    b64char (b % 16 * 4 + c / 64) :: b64char (c % 64) :: b64encode rest
  | [a, b] => [b64char (a / 4), b64char (a % 4 * 16 + b / 16), b64char (b % 16 * 4), 61]
  | [a] => [b64char (a / 4), b64char (a % 4 * 16), 61, 61]
  | [] => []

/-! ## Gamma table and BCM conversion (main.cpp lines 138-188) -/

/-- Modelled from the spec: `init_gamma(2.2f)` fills `gamma_tbl` with
`(uint8_t)(powf(i/255, 2.2) * 255 + 0.5)` using float arithmetic, which a
shallow embedding cannot reproduce bit-exactly; this is the exact real-number
counterpart `round(255 * (i/255)^(11/5))`, computed in integer arithmetic as
the least `k` with `(i^11 / 255^6)^(1/5) < k + 1/2`. -/
def init_gamma22 (i : Nat) : Nat :=
  ((List.range 256).filter (fun k => 32 * i ^ 11 < (2 * k + 1) ^ 5 * 255 ^ 6)).headD 255

/-- One packed BCM byte from the six gamma-corrected, depth-reduced channel
values, for bit plane `bit` (inner loop of `convert_to_bcm`). Bit j of the
result is channel j's bit `bit`, in the order R0,G0,B0,R1,G1,B1. -/
def bcm_pack (r0 g0 b0 r1 g1 b1 bit : Nat) : Nat :=
  (if r0 &&& (1 <<< bit) ≠ 0 then 1 else 0) +
  (if g0 &&& (1 <<< bit) ≠ 0 then 2 else 0) +
  (if b0 &&& (1 <<< bit) ≠ 0 then 4 else 0) +
  (if r1 &&& (1 <<< bit) ≠ 0 then 8 else 0) +
  (if g1 &&& (1 <<< bit) ≠ 0 then 16 else 0) +
  (if b1 &&& (1 <<< bit) ≠ 0 then 32 else 0)

/-- The packed byte `convert_to_bcm` stores at `bcm_planes[row][bit][x]`, as a
function of the gamma table `gt` and the RGB565 pixel array `pixels`. -/
def bcm_value (gt : Nat → Nat) (pixels : Nat → Nat) (row bit x : Nat) : Nat :=
  let p_up := pixels (row * DISPLAY_WIDTH + x)
  let p_lo := pixels ((row + SCAN_ROWS) * DISPLAY_WIDTH + x)
  let r0 := gt ((p_up >>> 11 &&& 31) <<< 3) >>> (8 - COLOR_DEPTH)
  let g0 := gt ((p_up >>> 5 &&& 63) <<< 2) >>> (8 - COLOR_DEPTH)
  let b0 := gt ((p_up &&& 31) <<< 3) >>> (8 - COLOR_DEPTH)
  let r1 := gt ((p_lo >>> 11 &&& 31) <<< 3) >>> (8 - COLOR_DEPTH)
  let g1 := gt ((p_lo >>> 5 &&& 63) <<< 2) >>> (8 - COLOR_DEPTH)
  let b1 := gt ((p_lo &&& 31) <<< 3) >>> (8 - COLOR_DEPTH)
  bcm_pack r0 g0 b0 r1 g1 b1 bit

/-- `convert_to_bcm` from main.cpp: rewrite every in-range entry of the
`bcm_planes` array (indexed row, bit, x) from the pixel array, leaving
out-of-range indices of the model function untouched. -/
def convert_to_bcm (gt : Nat → Nat) (pixels : Nat → Nat)
    (old : Nat → Nat → Nat → Nat) : Nat → Nat → Nat → Nat :=
  fun row bit x =>
    if row < SCAN_ROWS ∧ bit < COLOR_DEPTH ∧ x < DISPLAY_WIDTH then
      bcm_value gt pixels row bit x
    else old row bit x

/-! ## Receive-side machine state (main.cpp globals and `loop`) -/

/-- The globals of main.cpp that the receive loop manipulates.  `fb buf i` is
byte `i` of `frame_buffer[buf]` (the uint16_t frame viewed little-endian, as
the binary path's `(uint8_t*)` cast does); `recv` is
`recv_buffer[0 .. recv_pos)`, so `recv.length` is `recv_pos`. -/
structure MState where
  fb : Nat → Nat → Nat
  write_buf : Nat
  read_buf : Nat
  new_frame : Bool
  bcm : Nat → Nat → Nat → Nat
  recv : List Nat
  binary_mode : Bool
  binary_rem : Nat

/-- Write a byte list into frame buffer `t` at consecutive offsets starting at `o`. -/
def writeBytes (fb : Nat → Nat → Nat) (t o : Nat) : List Nat → (Nat → Nat → Nat)
  | [] => fb
  | b :: rest => writeBytes (fun u i => if u = t ∧ i = o then b else fb u i) t (o + 1) rest

/-- Pixel `idx` of frame buffer `buf` (uint16_t little-endian view). -/
def pixelAt (fb : Nat → Nat → Nat) (buf idx : Nat) : Nat :=
  fb buf (2 * idx) % 256 + 256 * (fb buf (2 * idx + 1) % 256)

/-- The frame-take at the top of `loop` (main.cpp lines 447-451): if
`new_frame`, copy `write_buf` to `read_buf`, clear the flag, and convert the
just-taken frame buffer to BCM planes. -/
def takeIfNew (gt : Nat → Nat) (s : MState) : MState :=
  if s.new_frame then
    { s with read_buf := s.write_buf, new_frame := false,
             bcm := convert_to_bcm gt (pixelAt s.fb s.write_buf) s.bcm }
  else s

/-- The frame a take passes to `convert_to_bcm` (`frame_buffer[read_buf]` after
`read_buf = write_buf`), or none when `new_frame` is clear. -/
def takeResult (s : MState) : Option (Nat → Nat) :=
  if s.new_frame then some (fun i => s.fb s.write_buf i) else none

/-- A publish as performed by the accept paths of `loop` (main.cpp lines
503-509 and 538-544): the decoded frame `F` has been written into
`frame_buffer[1 - read_buf]`, then `write_buf` is set to that index and
`new_frame` raised. -/
def publish (s : MState) (F : Nat → Nat) : MState :=
  let t := u8sub1 s.read_buf
  { s with
    fb := fun u i => if u = t ∧ i < FRAME_SIZE_RGB565 then F i % 256 else s.fb u i,
    write_buf := t, new_frame := true }

/-- Result of one `loop()` invocation: new state, bytes written to the serial
link (75 = K, 69 = E), and the portion of the input left in the stream. -/
structure LoopOut where
  st : MState
  out : List Nat
  rest : List Nat

/-- Result of the binary-mode while loop. -/
structure BinRes where
  fb : Nat → Nat → Nat
  remaining : Nat
  rest : List Nat
  err : Bool

/-- The binary-mode while loop (main.cpp lines 473-501). `offset` and
`remaining` mirror the C locals; each pass reads
`to_read = min(available, remaining)` bytes after the bounds check
`offset + to_read > FRAME_SIZE_RGB565`, and the impossible-underflow check
`actual > remaining` is kept.  Fuel only bounds the recursion; every pass
consumes at least one input byte, so `input.length + 1` fuel is always enough. -/
def binWhile (t : Nat) :
    Nat → (Nat → Nat → Nat) → Nat → Nat → List Nat → BinRes
  | 0, fb, _, remaining, input => ⟨fb, remaining, input, false⟩
  | fuel + 1, fb, offset, remaining, input =>
    if input.length = 0 ∨ remaining = 0 then ⟨fb, remaining, input, false⟩
    else
      let to_read := min input.length remaining
      if FRAME_SIZE_RGB565 < offset + to_read then ⟨fb, remaining, input, true⟩
      else
        let fb2 := writeBytes fb t offset ((input.take to_read).map (· % 256))
        if remaining < to_read then ⟨fb2, remaining, input.drop to_read, true⟩
        else binWhile t fuel fb2 (offset + to_read) (remaining - to_read)
               (input.drop to_read)

/-- The binary-mode branch of `loop` (main.cpp lines 458-511), entered with a
nonempty input. -/
def binaryBranch (s : MState) (input : List Nat) : LoopOut :=
  let t := u8sub1 s.read_buf
  let offset := sub32 FRAME_SIZE_RGB565 s.binary_rem
  if FRAME_SIZE_RGB565 < offset then
    ⟨{ s with binary_mode := false, binary_rem := 0, recv := [] }, [69], input⟩
  else
    let r := binWhile t (input.length + 1) s.fb offset s.binary_rem input
    if r.err then
      ⟨{ s with fb := r.fb, binary_mode := false, binary_rem := 0, recv := [] },
        [69], r.rest⟩
    else if r.remaining = 0 then
      ⟨{ s with fb := r.fb, binary_rem := 0, write_buf := t, new_frame := true,
                binary_mode := false }, [75], r.rest⟩
    else ⟨{ s with fb := r.fb, binary_rem := r.remaining }, [], r.rest⟩

/-- The text/Base64 while loop of `loop` (main.cpp lines 518-564), with the
`max_iterations = 1024` watchdog bound as fuel.  Each received byte is reduced
mod 256 (`uint8_t c = Serial.read()`). -/
def textWhile :
    Nat → MState → List Nat → LoopOut
  | 0, s, input => ⟨s, [], input⟩
  | _ + 1, s, [] => ⟨s, [], []⟩
  | iter + 1, s, a :: rest =>
    let c := a % 256
    if s.recv.length = 1 ∧ s.recv.getD 0 0 = BINARY_MAGIC_0 ∧ c = BINARY_MAGIC_1 then
      ⟨{ s with binary_mode := true, binary_rem := FRAME_SIZE_RGB565, recv := [] },
        [], rest⟩
    else if c = 10 then
      if 0 < s.recv.length then
        if base64_decode_length s.recv = FRAME_SIZE_RGB565 then
          let t := u8sub1 s.read_buf
          let d := base64_decode s.recv FRAME_SIZE_RGB565
          let fb2 := writeBytes s.fb t 0 d.1
          let decoded := if d.2 then 0 else d.1.length
          if decoded = FRAME_SIZE_RGB565 then
            let r := textWhile iter
              { s with fb := fb2, write_buf := t, new_frame := true, recv := [] } rest
            ⟨r.st, 75 :: r.out, r.rest⟩
          else
            let r := textWhile iter { s with fb := fb2, recv := [] } rest
            ⟨r.st, 69 :: r.out, r.rest⟩
        else
          let r := textWhile iter { s with recv := [] } rest
          ⟨r.st, 69 :: r.out, r.rest⟩
      else textWhile iter { s with recv := [] } rest
    else if c ≠ 13 then
      if s.recv.length < RECV_BUFFER_SIZE - 1 then
        textWhile iter { s with recv := s.recv ++ [c] } rest
      else
        let r := textWhile iter { s with recv := [] } rest
        ⟨r.st, 69 :: r.out, r.rest⟩
    else textWhile iter s rest

/-- One invocation of `loop()` (main.cpp lines 443-565): frame take, available
check, then the binary-mode or text-mode branch. -/
def loopOnce (gt : Nat → Nat) (s : MState) (input : List Nat) : LoopOut :=
  let s1 := takeIfNew gt s
  if input.length = 0 then ⟨s1, [], input⟩
  else if s1.binary_mode then binaryBranch s1 input
  else textWhile 1024 s1 input

/-- Repeated `loop()` invocations: each list element is the chunk of bytes that
becomes available before the next call; input left unconsumed by a call stays
in the stream and is prepended to the next chunk. -/
def runChunks (gt : Nat → Nat) (s : MState) (pending : List Nat) :
    List (List Nat) → MState × List Nat
  | [] => (s, [])
  | ch :: chs =>
    let r := loopOnce gt s (pending ++ ch)
    let w := runChunks gt r.st r.rest chs
    (w.1, r.out ++ w.2)

/-- The power-on state of the globals: zeroed frame buffers and planes (memset
in `hub75_gpio_init` / static initialisation), indices 0, no pending frame,
text mode. -/
def initState : MState :=
  { fb := fun _ _ => 0, write_buf := 0, read_buf := 0, new_frame := false,
    bcm := fun _ _ _ => 0, recv := [], binary_mode := false, binary_rem := 0 }

/-- The power-on state right after the sentinel byte pair was recognised. -/
def binStartState : MState :=
  { initState with binary_mode := true, binary_rem := FRAME_SIZE_RGB565 }

/-- The power-on state holding one pending `BINARY_MAGIC_0` byte. -/
def sentinelState : MState :=
  { initState with recv := [BINARY_MAGIC_0] }

/-- The power-on state holding one pending byte 7. -/
def oneByteState : MState :=
  { initState with recv := [7] }

/-- The power-on state with a full receive accumulator. -/
def fullRecvState : MState :=
  { initState with recv := List.replicate (RECV_BUFFER_SIZE - 1) 65 }

/-- The power-on state holding a pending accumulation of four symbols. -/
def fourByteState : MState :=
  { initState with recv := [65, 65, 65, 65] }

/-! ## ScanDriver refresh trace (main.cpp lines 248-343) -/

/-- Abstract panel-facing operations emitted by `hub75_refresh`; both the PIO
and the CPU build emit the same sequence (the FIFO waits of the PIO build only
block, they have no panel-visible effect). -/
inductive PanelOp where
  | oeDisable : PanelOp
  | oeEnable : PanelOp
  | shiftByte : Nat → PanelOp
  | setAddr : Nat → PanelOp
  | latAssert : PanelOp
  | latDeassert : PanelOp
  | holdUs : Nat → PanelOp
deriving DecidableEq

/-- `set_row_address` from main.cpp: the address lines receive the low four
bits of `row`, reassembled from the per-pin decomposition. -/
def set_row_address (row : Nat) : PanelOp :=
  PanelOp.setAddr
    ((row &&& 1) + 2 * (row >>> 1 &&& 1) + 4 * (row >>> 2 &&& 1) + 8 * (row >>> 3 &&& 1))

/-- The operations of one (bit, row) iteration of `hub75_refresh`: blank,
shift columns from `DISPLAY_WIDTH - 1` down to 0, address, latch pulse,
unblank, BCM delay of `1 << bit` microseconds, blank. -/
def refreshIter (planes : Nat → Nat → Nat → Nat) (bit row : Nat) : List PanelOp :=
  PanelOp.oeDisable ::
    ((List.range DISPLAY_WIDTH).reverse.map (fun x => PanelOp.shiftByte (planes row bit x)) ++
     [set_row_address row, PanelOp.latAssert, PanelOp.latDeassert,
      PanelOp.oeEnable, PanelOp.holdUs (1 <<< bit), PanelOp.oeDisable])

/-- The full operation trace of one `hub75_refresh()` call: `bit` outer over
`[0, COLOR_DEPTH)`, `row` inner over `[0, SCAN_ROWS)`. -/
def hub75_refresh (planes : Nat → Nat → Nat → Nat) : List PanelOp :=
  (List.range COLOR_DEPTH).flatMap (fun bit =>
    (List.range SCAN_ROWS).flatMap (fun row => refreshIter planes bit row))

/-- The per-iteration sequence exactly as the claim states it: disable output;
shift the `DISPLAY_WIDTH` packed bytes of `bcm_planes[row][bit]` in reversed
column order; set the address lines to the binary value of `row`; assert and
deassert the latch; enable output; hold `2 ^ bit` microsecond units; disable
output. -/
def refreshIterSpec (planes : Nat → Nat → Nat → Nat) (bit row : Nat) : List PanelOp :=
  [PanelOp.oeDisable] ++
    (List.range DISPLAY_WIDTH).reverse.map (fun x => PanelOp.shiftByte (planes row bit x)) ++
    [PanelOp.setAddr row, PanelOp.latAssert, PanelOp.latDeassert,
     PanelOp.oeEnable, PanelOp.holdUs (2 ^ bit), PanelOp.oeDisable]

/-- Output-enable state after executing a trace, starting from state `oe`
(true = output enabled). -/
def oeAfter : Bool → List PanelOp → Bool
  | oe, [] => oe
  | _, PanelOp.oeEnable :: rest => oeAfter true rest
  | _, PanelOp.oeDisable :: rest => oeAfter false rest
  | oe, _ :: rest => oeAfter oe rest

/-- True when every latch edge in the trace happens while output is disabled. -/
def oeLatchSafe : Bool → List PanelOp → Bool
  | _, [] => true
  | _, PanelOp.oeEnable :: rest => oeLatchSafe true rest
  | _, PanelOp.oeDisable :: rest => oeLatchSafe false rest
  | oe, PanelOp.latAssert :: rest => !oe && oeLatchSafe oe rest
  | oe, PanelOp.latDeassert :: rest => !oe && oeLatchSafe oe rest
  | oe, _ :: rest => oeLatchSafe oe rest

/-! ## Single-channel BCM drive (for the brightness-ordering property) -/

/-- RGB565 pixel with red = `v` and the other channels zero. -/
def redPixel (v : Nat) : Nat := v <<< 11

/-- A frame whose every pixel has red = `v`, green = blue = 0. -/
def redFrame (v : Nat) : Nat → Nat := fun _ => redPixel v

/-- Zeroed BCM planes. -/
def zeroPlanes : Nat → Nat → Nat → Nat := fun _ _ _ => 0

/-- The BCM planes `convert_to_bcm` produces for the constant red frame. -/
def redPlanes (gt : Nat → Nat) (v : Nat) : Nat → Nat → Nat → Nat :=
  convert_to_bcm gt (redFrame v) zeroPlanes

/-- Whether the upper-red channel bit is lit in plane `bit` (pixel (0,0)). -/
def redBit (gt : Nat → Nat) (v bit : Nat) : Nat := redPlanes gt v 0 bit 0 &&& 1

/-- The number of bit planes in which the red channel is lit. -/
def redPlaneCount (gt : Nat → Nat) (v : Nat) : Nat :=
  redBit gt v 0 + redBit gt v 1 + redBit gt v 2 +
  redBit gt v 3 + redBit gt v 4 + redBit gt v 5

/-- The total lit duration of the red channel across one refresh cycle, in BCM
time units: plane `bit` is displayed for `2 ^ bit` units. -/
def redPlaneWeight (gt : Nat → Nat) (v : Nat) : Nat :=
  redBit gt v 0 + 2 * redBit gt v 1 + 4 * redBit gt v 2 +
  8 * redBit gt v 3 + 16 * redBit gt v 4 + 32 * redBit gt v 5

/-! ## Helper lemmas -/

theorem and255_eq_mod (x : Nat) : x &&& 255 = x % 256 := by
  have h := Nat.and_pow_two_sub_one_eq_mod x 8
  norm_num at h
  exact h

theorem and63_eq_mod (x : Nat) : x &&& 63 = x % 64 := by
  have h := Nat.and_pow_two_sub_one_eq_mod x 6
  norm_num at h
  exact h

theorem and31_eq_mod (x : Nat) : x &&& 31 = x % 32 := by
  have h := Nat.and_pow_two_sub_one_eq_mod x 5
  norm_num at h
  exact h

theorem and15_eq_mod (x : Nat) : x &&& 15 = x % 16 := by
  have h := Nat.and_pow_two_sub_one_eq_mod x 4
  norm_num at h
  exact h

theorem shiftL6_or_small (x v : Nat) (h : v < 64) : (x <<< 6) ||| v = x * 64 + v := by
  have hv : v < 2 ^ 6 := by simpa using h
  calc x <<< 6 ||| v = 2 ^ 6 * x ||| v := by rw [Nat.shiftLeft_eq, Nat.mul_comm]
    _ = 2 ^ 6 * x + v := (Nat.mul_add_lt_is_or hv x).symm
    _ = x * 64 + v := by norm_num [Nat.mul_comm]

theorem writeBytes_ne (bs : List Nat) : ∀ (fb : Nat → Nat → Nat) (t o u i : Nat),
    (u ≠ t ∨ i < o ∨ o + bs.length ≤ i) → writeBytes fb t o bs u i = fb u i := by
  induction bs with
  | nil => intro fb t o u i _; rfl
  | cons b rest ih =>
    intro fb t o u i h
    show writeBytes _ t (o + 1) rest u i = fb u i
    rw [ih _ t (o + 1) u i (by simp only [List.length_cons] at h; omega)]
    have hne : ¬(u = t ∧ i = o) := by
      rintro ⟨rfl, rfl⟩
      simp only [List.length_cons] at h
      omega
    simp [hne]

theorem writeBytes_get (bs : List Nat) : ∀ (fb : Nat → Nat → Nat) (t o j : Nat),
    j < bs.length → writeBytes fb t o bs t (o + j) = bs.getD j 0 := by
  induction bs with
  | nil => intro fb t o j h; simp at h
  | cons b rest ih =>
    intro fb t o j h
    show writeBytes _ t (o + 1) rest t (o + j) = _
    match j with
    | 0 =>
      rw [writeBytes_ne rest _ t (o + 1) t (o + 0) (by omega)]
      simp
    | j' + 1 =>
      have : o + (j' + 1) = (o + 1) + j' := by omega
      rw [this, ih _ t (o + 1) j' (by simpa using h)]
      rfl

theorem writeBytes_append (l1 l2 : List Nat) : ∀ (fb : Nat → Nat → Nat) (t o : Nat),
    writeBytes fb t o (l1 ++ l2) = writeBytes (writeBytes fb t o l1) t (o + l1.length) l2 := by
  induction l1 with
  | nil => intro fb t o; simp [writeBytes]
  | cons b rest ih =>
    intro fb t o
    show writeBytes _ t (o + 1) (rest ++ l2) =
      writeBytes (writeBytes _ t (o + 1) rest) t (o + (rest.length + 1)) l2
    rw [ih]
    have hoff : o + 1 + rest.length = o + (rest.length + 1) := by omega
    rw [hoff]

/-! ## C5: FrameHandoff is newest-wins with exactly-once consumption -/

/-- C5: from any state, after `publish(A)` then `publish(B)` with no
intervening take, the next take (the `new_frame` check at the top of `loop`)
yields frame `B` — never `A` wherever the two frames differ — and an
immediately following take reports no new frame. -/
theorem c5_handoff_newest_wins (gt : Nat → Nat) (s : MState) (A B : Nat → Nat) :
    ∃ f, takeResult (publish (publish s A) B) = some f ∧
      (∀ i, i < FRAME_SIZE_RGB565 → f i = B i % 256) ∧
      (∀ i, i < FRAME_SIZE_RGB565 → A i % 256 ≠ B i % 256 → f i ≠ A i % 256) ∧
      takeResult (takeIfNew gt (publish (publish s A) B)) = none := by
  refine ⟨fun i => (publish (publish s A) B).fb (u8sub1 s.read_buf) i, ?_, ?_, ?_, ?_⟩
  · simp [takeResult, publish]
  · intro i hi
    simp [publish, hi]
  · intro i hi hne
    simp [publish, hi]
    exact fun h => hne h.symm
  · simp [takeResult, takeIfNew, publish]

/-- Witness for C5 at a concrete state and concrete frames. -/
theorem c5_handoff_newest_wins_witness :
    ∃ f, takeResult (publish (publish initState (fun _ => 1)) (fun _ => 2)) = some f ∧
      (∀ i, i < FRAME_SIZE_RGB565 → f i = (fun _ : Nat => 2) i % 256) ∧
      (∀ i, i < FRAME_SIZE_RGB565 →
        (fun _ : Nat => 1) i % 256 ≠ (fun _ : Nat => 2) i % 256 →
        f i ≠ (fun _ : Nat => 1) i % 256) ∧
      takeResult (takeIfNew (fun i => i)
        (publish (publish initState (fun _ => 1)) (fun _ => 2))) = none :=
  c5_handoff_newest_wins (fun i => i) initState (fun _ => 1) (fun _ => 2)

/-! ## C2: base64 round trip -/

theorem b64char_ne61 : ∀ k, k < 64 → b64char k ≠ 61 := by decide

theorem b64val_b64char : ∀ k, k < 64 → b64val (b64char k) = k := by decide

/-- Unfolding one alphabet character through the decoder loop body. -/
theorem decode_go_char (max k : Nat) (hk : k < 64) (rest : List Nat)
    (accum bits : Nat) (out : List Nat) :
    base64_decode_go max (b64char k :: rest) accum bits out =
      if 8 ≤ bits + 6 then
        (if max ≤ out.length then (out, true)
         else base64_decode_go max rest (((accum <<< 6) ||| k) % 2 ^ 32) (bits + 6 - 8)
                (out ++ [((((accum <<< 6) ||| k) % 2 ^ 32) >>> (bits + 6 - 8)) &&& 255]))
      else base64_decode_go max rest (((accum <<< 6) ||| k) % 2 ^ 32) (bits + 6) out := by
  simp only [base64_decode_go]
  rw [if_neg (b64char_ne61 k hk), b64val_b64char k hk, if_neg (by omega : ¬k = 64)]

/-- The three bytes recovered from one 4-character group, for any prior
accumulator content. -/
theorem decode4_bytes (s a b c : Nat) (ha : a < 256) (hb : b < 256) (hc : c < 256) :
    ((((((((s <<< 6) ||| (a / 4)) % 2 ^ 32) <<< 6) ||| (a % 4 * 16 + b / 16)) % 2 ^ 32) >>> 4) &&& 255) = a ∧
    (((((((((((s <<< 6) ||| (a / 4)) % 2 ^ 32) <<< 6) ||| (a % 4 * 16 + b / 16)) % 2 ^ 32) <<< 6) ||| (b % 16 * 4 + c / 64)) % 2 ^ 32) >>> 2) &&& 255) = b ∧
    ((((((((((((((s <<< 6) ||| (a / 4)) % 2 ^ 32) <<< 6) ||| (a % 4 * 16 + b / 16)) % 2 ^ 32) <<< 6) ||| (b % 16 * 4 + c / 64)) % 2 ^ 32) <<< 6) ||| (c % 64)) % 2 ^ 32) >>> 0) &&& 255) = c := by
  rw [shiftL6_or_small s (a / 4) (by omega)]
  rw [shiftL6_or_small _ (a % 4 * 16 + b / 16) (by omega)]
  rw [shiftL6_or_small _ (b % 16 * 4 + c / 64) (by omega)]
  rw [shiftL6_or_small _ (c % 64) (by omega)]
  rw [Nat.shiftRight_eq_div_pow, Nat.shiftRight_eq_div_pow, Nat.shiftRight_eq_div_pow]
  rw [and255_eq_mod, and255_eq_mod, and255_eq_mod]
  refine ⟨by omega, by omega, by omega⟩

/-- Decoding the encoding of any byte list appends exactly that list to the
output, for any prior accumulator content, provided the capacity suffices. -/
theorem base64_roundtrip_aux (max : Nat) :
    ∀ F accum out, (∀ x ∈ F, x < 256) → out.length + F.length ≤ max →
      base64_decode_go max (b64encode F) accum 0 out = (out ++ F, false) := by
  intro F
  induction F using b64encode.induct with
  | case1 a b c rest ih =>
    intro accum out hF hlen
    have ha : a < 256 := hF a (by simp)
    have hb : b < 256 := hF b (by simp)
    have hc : c < 256 := hF c (by simp)
    have hrest : rest.length + 3 + out.length ≤ max := by
      simp only [List.length_cons] at hlen
      omega
    obtain ⟨e1, e2, e3⟩ := decode4_bytes accum a b c ha hb hc
    simp only [b64encode]
    rw [decode_go_char max (a / 4) (by omega)]
    rw [if_neg (by omega)]
    rw [decode_go_char max (a % 4 * 16 + b / 16) (by omega)]
    rw [if_pos (by omega), if_neg (by omega : ¬max ≤ out.length)]
    rw [decode_go_char max (b % 16 * 4 + c / 64) (by omega)]
    rw [if_pos (by omega), if_neg (by simp; omega)]
    rw [decode_go_char max (c % 64) (by omega)]
    rw [if_pos (by omega), if_neg (by simp; omega)]
    norm_num at e1 e2 e3 ⊢
    rw [e1, e2, e3]
    rw [ih _ _ (fun x hx => hF x (by simp [hx])) (by simp; omega)]
    simp
  | case2 a b =>
    intro accum out hF hlen
    have ha : a < 256 := hF a (by simp)
    have hb : b < 256 := hF b (by simp)
    obtain ⟨e1, e2, _⟩ := decode4_bytes accum a b 0 ha hb (by omega)
    simp only [b64encode]
    rw [decode_go_char max (a / 4) (by omega)]
    rw [if_neg (by omega)]
    rw [decode_go_char max (a % 4 * 16 + b / 16) (by omega)]
    rw [if_pos (by omega), if_neg (by simp at hlen ⊢; omega)]
    rw [show b % 16 * 4 = b % 16 * 4 + 0 / 64 by norm_num]
    rw [decode_go_char max (b % 16 * 4 + 0 / 64) (by omega)]
    rw [if_pos (by omega), if_neg (by simp at hlen ⊢; omega)]
    simp only [base64_decode_go, if_pos rfl]
    norm_num at e1 e2 ⊢
    rw [e1, e2]
    simp
  | case3 a =>
    intro accum out hF hlen
    have ha : a < 256 := hF a (by simp)
    obtain ⟨e1, _, _⟩ := decode4_bytes accum a 0 0 ha (by omega) (by omega)
    simp only [b64encode]
    rw [decode_go_char max (a / 4) (by omega)]
    rw [if_neg (by omega)]
    rw [show a % 4 * 16 = a % 4 * 16 + 0 / 16 by norm_num]
    rw [decode_go_char max (a % 4 * 16 + 0 / 16) (by omega)]
    rw [if_pos (by omega), if_neg (by simp at hlen ⊢; omega)]
    simp only [base64_decode_go, if_pos rfl]
    norm_num at e1 ⊢
    rw [e1]
  | case4 =>
    intro accum out _ _
    simp [b64encode, base64_decode_go]

/-- Bytes outside the alphabet (and different from the pad 61) are skipped:
removing one such byte anywhere in the input leaves the decode unchanged. -/
theorem decode_go_skip (max c : Nat) (hc : b64val c = 64) (h61 : c ≠ 61) :
    ∀ (pre : List Nat) (accum bits : Nat) (out post : List Nat),
      base64_decode_go max (pre ++ c :: post) accum bits out =
        base64_decode_go max (pre ++ post) accum bits out := by
  intro pre
  induction pre with
  | nil =>
    intro accum bits out post
    simp only [List.nil_append, base64_decode_go]
    rw [if_neg h61, hc, if_pos rfl]
  | cons d pre ih =>
    intro accum bits out post
    simp only [List.cons_append, base64_decode_go]
    split
    · rfl
    · split
      · exact ih _ _ _ _
      · split
        · split
          · rfl
          · exact ih _ _ _ _
        · exact ih _ _ _ _

/-- C2: decoding the standard base64 encoding of any valid frame (exactly
`FRAME_SIZE_RGB565` bytes) with capacity `FRAME_SIZE_RGB565` succeeds, returns
length `FRAME_SIZE_RGB565`, reproduces the frame exactly; and bytes outside
the 64-symbol alphabet (other than the pad) are skipped rather than causing
failure. -/
theorem c2_base64_roundtrip_and_skip :
    (∀ F : List Nat, (∀ x ∈ F, x < 256) → F.length = FRAME_SIZE_RGB565 →
      base64_decode (b64encode F) FRAME_SIZE_RGB565 = (F, false) ∧
      base64_decode_ret (b64encode F) FRAME_SIZE_RGB565 = FRAME_SIZE_RGB565) ∧
    (∀ (pre post : List Nat) (max c : Nat), b64val c = 64 → c ≠ 61 →
      base64_decode (pre ++ c :: post) max = base64_decode (pre ++ post) max) := by
  constructor
  · intro F hF hlen
    have h : base64_decode (b64encode F) FRAME_SIZE_RGB565 = (F, false) := by
      simpa [base64_decode] using
        base64_roundtrip_aux FRAME_SIZE_RGB565 F 0 [] hF (by simp [hlen])
    exact ⟨h, by simp [base64_decode_ret, h, hlen]⟩
  · intro pre post max c hc h61
    show base64_decode_go max (pre ++ c :: post) 0 0 [] =
      base64_decode_go max (pre ++ post) 0 0 []
    exact decode_go_skip max c hc h61 pre 0 0 [] post

/-- Witness for C2: the all-zero frame round-trips, and a linefeed byte inside
the text is skipped. -/
theorem c2_base64_roundtrip_and_skip_witness :
    (base64_decode (b64encode (List.replicate FRAME_SIZE_RGB565 0)) FRAME_SIZE_RGB565 =
        (List.replicate FRAME_SIZE_RGB565 0, false) ∧
      base64_decode_ret (b64encode (List.replicate FRAME_SIZE_RGB565 0)) FRAME_SIZE_RGB565 =
        FRAME_SIZE_RGB565) ∧
    base64_decode ([] ++ 10 :: [65]) 4 = base64_decode ([] ++ [65]) 4 :=
  ⟨c2_base64_roundtrip_and_skip.1 (List.replicate FRAME_SIZE_RGB565 0)
      (fun x hx => by rw [List.eq_of_mem_replicate hx]; norm_num)
      (by simp),
    c2_base64_roundtrip_and_skip.2 [] [65] 4 10 (by decide) (by decide)⟩

/-! ## Binary-mode characterization -/

theorem takeIfNew_not_new (gt : Nat → Nat) (s : MState) (h : s.new_frame = false) :
    takeIfNew gt s = s := by
  simp [takeIfNew, h]

theorem sub32_of_le (a b : Nat) (hb : b ≤ a) (ha : a < 2 ^ 32) : sub32 a b = a - b := by
  unfold sub32
  omega

theorem frame_size_lt_2_32 : FRAME_SIZE_RGB565 < 2 ^ 32 := by decide

/-- `binWhile` with enough fuel and a consistent offset copies
`min available remaining` bytes and never errors. -/
theorem binWhile_go (t : Nat) : ∀ (fuel : Nat) (fb : Nat → Nat → Nat) (offset n : Nat)
    (input : List Nat), input.length < fuel → offset + n ≤ FRAME_SIZE_RGB565 →
    binWhile t fuel fb offset n input =
      ⟨writeBytes fb t offset ((input.take (min input.length n)).map (· % 256)),
        n - min input.length n, input.drop (min input.length n), false⟩ := by
  intro fuel
  induction fuel with
  | zero => intro fb offset n input h _; omega
  | succ fuel ih =>
    intro fb offset n input hlen hoff
    simp only [binWhile]
    by_cases h0 : input.length = 0 ∨ n = 0
    · rw [if_pos h0]
      rcases h0 with h0 | h0
      · have hnil : input = [] := List.eq_nil_of_length_eq_zero h0
        subst hnil
        simp [writeBytes]
      · subst h0
        simp [writeBytes]
    · rw [if_neg h0]
      push_neg at h0
      obtain ⟨hne, hn⟩ := h0
      rw [if_neg (by omega : ¬FRAME_SIZE_RGB565 < offset + min input.length n)]
      rw [if_neg (by omega : ¬n < min input.length n)]
      rw [ih _ (offset + min input.length n) (n - min input.length n)
        (input.drop (min input.length n)) (by simp; omega) (by omega)]
      have hmin : min (input.drop (min input.length n)).length (n - min input.length n) = 0 := by
        simp
        omega
      rw [hmin]
      simp [writeBytes]

/-- The binary branch when fewer bytes are available than remain: all of them
are copied at the current offset, the count decreases, no output. -/
theorem binaryBranch_underfill (s : MState) (input : List Nat) (n : Nat)
    (hrem : s.binary_rem = n) (hle : n ≤ FRAME_SIZE_RGB565)
    (hlt : input.length < n) :
    binaryBranch s input =
      ⟨{ s with
           fb := writeBytes s.fb (u8sub1 s.read_buf) (FRAME_SIZE_RGB565 - n)
                   (input.map (· % 256)),
           binary_rem := n - input.length }, [], []⟩ := by
  have hoff : sub32 FRAME_SIZE_RGB565 n = FRAME_SIZE_RGB565 - n :=
    sub32_of_le _ _ hle frame_size_lt_2_32
  simp only [binaryBranch, hrem, hoff]
  rw [if_neg (by omega : ¬FRAME_SIZE_RGB565 < FRAME_SIZE_RGB565 - n)]
  rw [binWhile_go _ _ _ _ _ _ (by omega) (by omega)]
  have hmin : min input.length n = input.length := by omega
  rw [hmin]
  simp only [List.take_length, List.drop_length]
  norm_num
  omega

/-- The binary branch when at least the remaining count is available: exactly
`n` bytes are copied, the frame is published, a single K is emitted, binary
mode exited, and the surplus input is left in the stream. -/
theorem binaryBranch_complete (s : MState) (input : List Nat) (n : Nat)
    (hrem : s.binary_rem = n) (h0 : 0 < n) (hle : n ≤ FRAME_SIZE_RGB565)
    (hge : n ≤ input.length) :
    binaryBranch s input =
      ⟨{ s with
           fb := writeBytes s.fb (u8sub1 s.read_buf) (FRAME_SIZE_RGB565 - n)
                   ((input.take n).map (· % 256)),
           binary_rem := 0,
           write_buf := u8sub1 s.read_buf,
           new_frame := true,
           binary_mode := false },
        [75], input.drop n⟩ := by
  have hoff : sub32 FRAME_SIZE_RGB565 n = FRAME_SIZE_RGB565 - n :=
    sub32_of_le _ _ hle frame_size_lt_2_32
  simp only [binaryBranch, hrem, hoff]
  rw [if_neg (by omega : ¬FRAME_SIZE_RGB565 < FRAME_SIZE_RGB565 - n)]
  rw [binWhile_go _ _ _ _ _ _ (by omega) (by omega)]
  have hmin : min input.length n = n := by omega
  rw [hmin]
  norm_num

/-- `loop()` in binary mode with fewer bytes available than remaining. -/
theorem loopOnce_binary_underfill (gt : Nat → Nat) (s : MState) (input : List Nat) (n : Nat)
    (hnf : s.new_frame = false) (hbm : s.binary_mode = true) (hrem : s.binary_rem = n)
    (hle : n ≤ FRAME_SIZE_RGB565) (hlt : input.length < n) (hne : input ≠ []) :
    loopOnce gt s input =
      ⟨{ s with
           fb := writeBytes s.fb (u8sub1 s.read_buf) (FRAME_SIZE_RGB565 - n)
                   (input.map (· % 256)),
           binary_rem := n - input.length }, [], []⟩ := by
  simp only [loopOnce, takeIfNew_not_new gt s hnf]
  rw [if_neg (by simpa [List.length_eq_zero] using hne), if_pos hbm]
  exact binaryBranch_underfill s input n hrem hle hlt

/-- `loop()` in binary mode with at least the remaining count available. -/
theorem loopOnce_binary_complete (gt : Nat → Nat) (s : MState) (input : List Nat) (n : Nat)
    (hnf : s.new_frame = false) (hbm : s.binary_mode = true) (hrem : s.binary_rem = n)
    (h0 : 0 < n) (hle : n ≤ FRAME_SIZE_RGB565) (hge : n ≤ input.length) :
    loopOnce gt s input =
      ⟨{ s with
           fb := writeBytes s.fb (u8sub1 s.read_buf) (FRAME_SIZE_RGB565 - n)
                   ((input.take n).map (· % 256)),
           binary_rem := 0,
           write_buf := u8sub1 s.read_buf,
           new_frame := true,
           binary_mode := false },
        [75], input.drop n⟩ := by
  simp only [loopOnce, takeIfNew_not_new gt s hnf]
  rw [if_neg (by omega), if_pos hbm]
  exact binaryBranch_complete s input n hrem h0 hle hge

/-- C6: the raw-binary fast path.  First conjunct: with one pending byte
`BINARY_MAGIC_0` at the start of the accumulation, a `BINARY_MAGIC_1` byte
switches to binary mode expecting `FRAME_SIZE_RGB565` bytes, resets the
accumulator and consumes nothing further.  Second conjunct: from binary mode
with `n` bytes remaining, any chunking of exactly `n` stream bytes across any
number of `loop()` calls copies them verbatim (mod 256) to consecutive
offsets of the destination buffer, completes the frame exactly when the count
reaches zero, emits a single K, publishes, and exits binary mode. -/
theorem c6_binary_fastpath :
    (∀ (gt : Nat → Nat) (s : MState) (a : Nat) (rest : List Nat),
      s.new_frame = false → s.binary_mode = false →
      s.recv = [BINARY_MAGIC_0] → a % 256 = BINARY_MAGIC_1 →
      loopOnce gt s (a :: rest) =
        ⟨{ s with binary_mode := true, binary_rem := FRAME_SIZE_RGB565, recv := [] },
          [], rest⟩) ∧
    (∀ (gt : Nat → Nat) (s : MState) (n : Nat) (chunks : List (List Nat)),
      s.new_frame = false → s.binary_mode = true → s.binary_rem = n →
      0 < n → n ≤ FRAME_SIZE_RGB565 →
      (∀ ch ∈ chunks, ch ≠ []) → (chunks.map List.length).sum = n →
      runChunks gt s [] chunks =
        ({ s with
             fb := writeBytes s.fb (u8sub1 s.read_buf) (FRAME_SIZE_RGB565 - n)
                     (chunks.flatten.map (· % 256)),
             binary_rem := 0,
             write_buf := u8sub1 s.read_buf,
             new_frame := true,
             binary_mode := false }, [75])) := by
  constructor
  · intro gt s a rest hnf hbm hrecv hc
    simp only [loopOnce, takeIfNew_not_new gt s hnf]
    rw [if_neg (by simp), if_neg (by simp [hbm])]
    rw [show (1024 : Nat) = 1023 + 1 from rfl]
    simp only [textWhile]
    rw [if_pos (by simp [hrecv, hc])]
  · intro gt s n chunks
    induction chunks generalizing s n with
    | nil =>
      intro _ _ _ h0 _ _ hsum
      simp at hsum
      omega
    | cons ch chs ih =>
      intro hnf hbm hrem h0 hle hne hsum
      simp only [runChunks, List.nil_append]
      have hchne : ch ≠ [] := hne ch (by simp)
      have hchpos : 0 < ch.length := List.length_pos.mpr hchne
      by_cases hch : chs = []
      · subst hch
        simp only [List.map_cons, List.map_nil, List.sum_cons, List.sum_nil,
          Nat.add_zero] at hsum
        have hlen : n ≤ ch.length := by omega
        rw [loopOnce_binary_complete gt s ch n hnf hbm hrem h0 hle hlen]
        simp only [runChunks]
        have htake : ch.take n = ch := by
          rw [show n = ch.length by omega]
          exact List.take_length ch
        rw [htake]
        simp
      · have hex : ∃ c2 cs2, chs = c2 :: cs2 := by
          cases chs with
          | nil => exact absurd rfl hch
          | cons c2 cs2 => exact ⟨c2, cs2, rfl⟩
        obtain ⟨c2, cs2, rfl⟩ := hex
        have hc2 : 0 < c2.length := List.length_pos.mpr (hne c2 (by simp))
        simp only [List.map_cons, List.sum_cons] at hsum
        have hlt : ch.length < n := by omega
        rw [loopOnce_binary_underfill gt s ch n hnf hbm hrem hle hlt hchne]
        simp only
        rw [ih { s with
                   fb := writeBytes s.fb (u8sub1 s.read_buf) (FRAME_SIZE_RGB565 - n)
                           (ch.map (· % 256)),
                   binary_rem := n - ch.length }
              (n - ch.length) hnf hbm rfl (by omega) (by omega)
              (fun c hc => hne c (by simp [hc])) (by simp; omega)]
        have harith : FRAME_SIZE_RGB565 - (n - ch.length) =
            FRAME_SIZE_RGB565 - n + (ch.map (· % 256)).length := by
          simp only [List.length_map]
          omega
        rw [harith, ← writeBytes_append]
        simp

/-- Witness for C6: the sentinel trigger from a concrete state, and a whole
frame of byte value 7 delivered as one chunk. -/
theorem c6_binary_fastpath_witness :
    loopOnce (fun i => i) sentinelState (0 :: [1, 2]) =
      ⟨{ sentinelState with
           binary_mode := true, binary_rem := FRAME_SIZE_RGB565, recv := [] },
        [], [1, 2]⟩ ∧
    runChunks (fun i => i) binStartState [] [List.replicate FRAME_SIZE_RGB565 7] =
      ({ binStartState with
           fb := writeBytes binStartState.fb (u8sub1 binStartState.read_buf)
                   (FRAME_SIZE_RGB565 - FRAME_SIZE_RGB565)
                   ([List.replicate FRAME_SIZE_RGB565 7].flatten.map (· % 256)),
           binary_rem := 0,
           write_buf := u8sub1 binStartState.read_buf,
           new_frame := true,
           binary_mode := false }, [75]) :=
  ⟨c6_binary_fastpath.1 (fun i => i) sentinelState 0 [1, 2] rfl rfl rfl rfl,
    c6_binary_fastpath.2 (fun i => i) binStartState
      FRAME_SIZE_RGB565 [List.replicate FRAME_SIZE_RGB565 7]
      rfl rfl rfl (by decide) (Nat.le_refl _) (by decide) (by simp)⟩

/-! ## C1: all destination writes stay in bounds -/

/-- The decoder never accumulates more than `max_output` output bytes. -/
theorem decode_go_length_le (max : Nat) : ∀ (input : List Nat) (accum bits : Nat)
    (out : List Nat), out.length ≤ max →
    (base64_decode_go max input accum bits out).1.length ≤ max := by
  intro input
  induction input with
  | nil => intro accum bits out h; simpa [base64_decode_go] using h
  | cons c rest ih =>
    intro accum bits out h
    simp only [base64_decode_go]
    split
    · simpa using h
    · split
      · exact ih _ _ _ h
      · split
        · split
          · simpa using h
          · apply ih
            simp
            omega
        · exact ih _ _ _ h

theorem base64_decode_length_le (input : List Nat) (max : Nat) :
    (base64_decode input max).1.length ≤ max :=
  decode_go_length_le max input 0 0 [] (by simp)

/-- The binary-mode while loop never touches destination bytes at offsets
`≥ FRAME_SIZE_RGB565`. -/
theorem binWhile_fb_high (t : Nat) : ∀ (fuel : Nat) (fb : Nat → Nat → Nat) (offset n : Nat)
    (input : List Nat) (b i : Nat), FRAME_SIZE_RGB565 ≤ i →
    (binWhile t fuel fb offset n input).fb b i = fb b i := by
  intro fuel
  induction fuel with
  | zero => intro fb offset n input b i _; rfl
  | succ fuel ih =>
    intro fb offset n input b i hi
    simp only [binWhile]
    by_cases h1 : input.length = 0 ∨ n = 0
    · rw [if_pos h1]
    · rw [if_neg h1]
      by_cases h2 : FRAME_SIZE_RGB565 < offset + min input.length n
      · rw [if_pos h2]
      · rw [if_neg h2]
        have hwb : writeBytes fb t offset
            ((input.take (min input.length n)).map (· % 256)) b i = fb b i := by
          apply writeBytes_ne
          right
          right
          simp only [List.length_map, List.length_take]
          omega
        by_cases h3 : n < min input.length n
        · rw [if_pos h3]
          exact hwb
        · rw [if_neg h3]
          rw [ih _ _ _ _ b i hi]
          exact hwb

/-- The binary branch never touches destination bytes at offsets
`≥ FRAME_SIZE_RGB565`. -/
theorem binaryBranch_fb_high (s : MState) (input : List Nat) (b i : Nat)
    (hi : FRAME_SIZE_RGB565 ≤ i) : (binaryBranch s input).st.fb b i = s.fb b i := by
  simp only [binaryBranch]
  split
  · rfl
  · split
    · exact binWhile_fb_high _ _ _ _ _ _ b i hi
    · split
      · exact binWhile_fb_high _ _ _ _ _ _ b i hi
      · exact binWhile_fb_high _ _ _ _ _ _ b i hi

/-- The text branch never touches destination bytes at offsets
`≥ FRAME_SIZE_RGB565`. -/
theorem textWhile_fb_high : ∀ (iter : Nat) (s : MState) (input : List Nat) (b i : Nat),
    FRAME_SIZE_RGB565 ≤ i → (textWhile iter s input).st.fb b i = s.fb b i := by
  intro iter
  induction iter with
  | zero => intro s input b i _; rfl
  | succ iter ih =>
    intro s input b i hi
    match input with
    | [] => rfl
    | a :: rest =>
      have hdec : ∀ t : Nat, writeBytes s.fb t 0
          (base64_decode s.recv FRAME_SIZE_RGB565).1 b i = s.fb b i := by
        intro t
        apply writeBytes_ne
        right
        right
        have := base64_decode_length_le s.recv FRAME_SIZE_RGB565
        omega
      simp only [textWhile]
      split
      · rfl
      · split
        · split
          · split
            · split
              all_goals split
              all_goals rw [ih _ _ b i hi]
              all_goals exact hdec _
            · exact ih _ _ b i hi
          · exact ih _ _ b i hi
        · split
          · split
            · exact ih _ _ b i hi
            · exact ih _ _ b i hi
          · exact ih _ _ b i hi

/-- One `loop()` call never touches frame-buffer bytes at offsets
`≥ FRAME_SIZE_RGB565`. -/
theorem loopOnce_fb_high (gt : Nat → Nat) (s : MState) (input : List Nat) (b i : Nat)
    (hi : FRAME_SIZE_RGB565 ≤ i) : (loopOnce gt s input).st.fb b i = s.fb b i := by
  have htake : (takeIfNew gt s).fb = s.fb := by
    simp only [takeIfNew]
    split <;> rfl
  simp only [loopOnce]
  split
  · show (takeIfNew gt s).fb b i = s.fb b i
    rw [htake]
  · split
    · exact (binaryBranch_fb_high _ _ b i hi).trans (by rw [htake])
    · exact (textWhile_fb_high _ _ _ b i hi).trans (by rw [htake])

/-- C1: writes are always in bounds.  First conjunct: `base64_decode` writes
`output[0..len)` with `len ≤ max_output`, so no index `≥ max_output` is ever
written.  Second and third conjuncts: one `loop()` call, and any sequence of
`loop()` calls over any chunked byte stream, leave every frame-buffer byte at
offset `≥ FRAME_SIZE_RGB565` unchanged, from any machine state. -/
theorem c1_decoder_write_bounds :
    (∀ (input : List Nat) (max_output : Nat),
      (base64_decode input max_output).1.length ≤ max_output) ∧
    (∀ (gt : Nat → Nat) (s : MState) (input : List Nat) (b i : Nat),
      FRAME_SIZE_RGB565 ≤ i → (loopOnce gt s input).st.fb b i = s.fb b i) ∧
    (∀ (gt : Nat → Nat) (s : MState) (pending : List Nat) (chunks : List (List Nat))
      (b i : Nat), FRAME_SIZE_RGB565 ≤ i →
      (runChunks gt s pending chunks).1.fb b i = s.fb b i) := by
  refine ⟨base64_decode_length_le, loopOnce_fb_high, ?_⟩
  intro gt s pending chunks
  induction chunks generalizing s pending with
  | nil => intro b i _; rfl
  | cons ch chs ih =>
    intro b i hi
    simp only [runChunks]
    exact (ih _ _ b i hi).trans (loopOnce_fb_high gt s (pending ++ ch) b i hi)

/-- Witness for C1 at a concrete state, stream and offset. -/
theorem c1_decoder_write_bounds_witness :
    (base64_decode [65, 66, 67, 68] 2).1.length ≤ 2 ∧
    (loopOnce (fun i => i) binStartState [3, 4]).st.fb 0 FRAME_SIZE_RGB565 =
      binStartState.fb 0 FRAME_SIZE_RGB565 ∧
    (runChunks (fun i => i) initState [] [[65, 10]]).1.fb 1 FRAME_SIZE_RGB565 =
      initState.fb 1 FRAME_SIZE_RGB565 :=
  ⟨c1_decoder_write_bounds.1 [65, 66, 67, 68] 2,
    c1_decoder_write_bounds.2.1 (fun i => i) binStartState [3, 4] 0 FRAME_SIZE_RGB565
      (Nat.le_refl _),
    c1_decoder_write_bounds.2.2 (fun i => i) initState [] [[65, 10]] 1 FRAME_SIZE_RGB565
      (Nat.le_refl _)⟩

/-! ## Text-loop state invariants -/

theorem textWhile_read_buf : ∀ (iter : Nat) (s : MState) (input : List Nat),
    (textWhile iter s input).st.read_buf = s.read_buf := by
  intro iter
  induction iter with
  | zero => intro s input; rfl
  | succ iter ih =>
    intro s input
    match input with
    | [] => rfl
    | a :: rest =>
      simp only [textWhile]
      repeat' split
      all_goals first | rfl | exact ih _ _

theorem textWhile_bcm : ∀ (iter : Nat) (s : MState) (input : List Nat),
    (textWhile iter s input).st.bcm = s.bcm := by
  intro iter
  induction iter with
  | zero => intro s input; rfl
  | succ iter ih =>
    intro s input
    match input with
    | [] => rfl
    | a :: rest =>
      simp only [textWhile]
      repeat' split
      all_goals first | rfl | exact ih _ _

theorem textWhile_new_frame_mono : ∀ (iter : Nat) (s : MState) (input : List Nat),
    s.new_frame = true → (textWhile iter s input).st.new_frame = true := by
  intro iter
  induction iter with
  | zero => intro s input h; exact h
  | succ iter ih =>
    intro s input
    match input with
    | [] => exact fun h => h
    | a :: rest =>
      simp only [textWhile]
      repeat' split
      all_goals first
        | exact fun h => h
        | exact fun h => ih _ _ h
        | exact fun h => ih _ _ rfl

theorem textWhile_write_buf : ∀ (iter : Nat) (s : MState) (input : List Nat),
    (textWhile iter s input).st.new_frame = false →
    (textWhile iter s input).st.write_buf = s.write_buf ∧ s.new_frame = false := by
  intro iter
  induction iter with
  | zero => intro s input h; exact ⟨rfl, h⟩
  | succ iter ih =>
    intro s input
    match input with
    | [] => exact fun h => ⟨rfl, h⟩
    | a :: rest =>
      simp only [textWhile]
      repeat' split
      all_goals first
        | exact fun h => ⟨rfl, h⟩
        | exact fun h => ih _ _ h
        | exact fun h => absurd (ih _ _ h).2 (by simp)

theorem textWhile_fb_other : ∀ (iter : Nat) (s : MState) (input : List Nat) (u j : Nat),
    u ≠ u8sub1 s.read_buf → (textWhile iter s input).st.fb u j = s.fb u j := by
  intro iter
  induction iter with
  | zero => intro s input u j _; rfl
  | succ iter ih =>
    intro s input u j h
    match input with
    | [] => rfl
    | a :: rest =>
      simp only [textWhile]
      repeat' split
      all_goals first
        | rfl
        | exact ih _ _ u j h
        | (rw [ih _ _ u j]; exact writeBytes_ne _ _ _ _ _ _ (Or.inl h))
      all_goals exact h

theorem textWhile_recv_bound : ∀ (iter : Nat) (s : MState) (input : List Nat),
    s.recv.length ≤ RECV_BUFFER_SIZE - 1 →
    (textWhile iter s input).st.recv.length ≤ RECV_BUFFER_SIZE - 1 := by
  intro iter
  induction iter with
  | zero => intro s input h; exact h
  | succ iter ih =>
    intro s input
    match input with
    | [] => exact fun h => h
    | a :: rest =>
      simp only [textWhile]
      repeat' split
      all_goals first
        | exact fun h => h
        | exact fun _ => Nat.zero_le _
        | exact fun h => ih _ _ h
        | exact fun _ => ih _ _ (Nat.zero_le _)
        | exact fun _ => ih _ _ (by simp; omega)

/-- The binary-mode while loop only writes to frame buffer `t`. -/
theorem binWhile_fb_other (t : Nat) : ∀ (fuel : Nat) (fb : Nat → Nat → Nat) (offset n : Nat)
    (input : List Nat) (u j : Nat), u ≠ t →
    (binWhile t fuel fb offset n input).fb u j = fb u j := by
  intro fuel
  induction fuel with
  | zero => intro fb offset n input u j _; rfl
  | succ fuel ih =>
    intro fb offset n input u j hu
    simp only [binWhile]
    repeat' split
    all_goals first
      | rfl
      | exact writeBytes_ne _ _ _ _ _ _ (Or.inl hu)
      | (rw [ih _ _ _ _ u j hu]; exact writeBytes_ne _ _ _ _ _ _ (Or.inl hu))

/-- Receive-side effects of the binary branch: the display-side fields change
only when a frame completes, and only frame buffer `1 - read_buf` is written. -/
theorem binaryBranch_state (s : MState) (input : List Nat) :
    (binaryBranch s input).st.read_buf = s.read_buf ∧
    (binaryBranch s input).st.bcm = s.bcm ∧
    ((binaryBranch s input).st.new_frame = false →
      (binaryBranch s input).st.write_buf = s.write_buf ∧ s.new_frame = false) ∧
    (∀ u j, u ≠ u8sub1 s.read_buf → (binaryBranch s input).st.fb u j = s.fb u j) ∧
    ((binaryBranch s input).st.recv = s.recv ∨ (binaryBranch s input).st.recv = []) := by
  simp only [binaryBranch]
  repeat' split
  all_goals refine ⟨rfl, rfl, ?_, fun u j hu => ?_, ?_⟩
  all_goals first
    | exact fun h => ⟨rfl, h⟩
    | exact fun h => absurd h (by simp)
    | rfl
    | exact binWhile_fb_other _ _ _ _ _ _ u j hu
    | exact Or.inl rfl
    | exact Or.inr rfl

/-! ## C10 and C8 -/

/-- C10: with no pending publish, one `loop()` call — whatever the input, in
particular on every decode-failure path — leaves `read_buf`, the BCM planes
and the displayed frame buffer `frame_buffer[read_buf]` unchanged, and leaves
`write_buf` unchanged unless it published a frame (`new_frame` raised). -/
theorem c10_failure_leaves_display_untouched (gt : Nat → Nat) (s : MState)
    (input : List Nat) (hnf : s.new_frame = false) (hrb : s.read_buf < 2) :
    (loopOnce gt s input).st.read_buf = s.read_buf ∧
    (loopOnce gt s input).st.bcm = s.bcm ∧
    (∀ j, (loopOnce gt s input).st.fb s.read_buf j = s.fb s.read_buf j) ∧
    ((loopOnce gt s input).st.new_frame = false →
      (loopOnce gt s input).st.write_buf = s.write_buf) := by
  have hne : s.read_buf ≠ u8sub1 s.read_buf := by
    unfold u8sub1
    omega
  simp only [loopOnce, takeIfNew_not_new gt s hnf]
  split
  · exact ⟨rfl, rfl, fun j => rfl, fun _ => rfl⟩
  · split
    · obtain ⟨h1, h2, h3, h4, _⟩ := binaryBranch_state s input
      exact ⟨h1, h2, fun j => h4 _ j hne, fun h => (h3 h).1⟩
    · exact ⟨textWhile_read_buf _ _ _, textWhile_bcm _ _ _,
        fun j => textWhile_fb_other _ _ _ _ j hne,
        fun h => (textWhile_write_buf _ _ _ h).1⟩

/-- Witness for C10 at the power-on state and a byte that ends up rejected. -/
theorem c10_failure_leaves_display_untouched_witness :
    (loopOnce (fun i => i) initState [70]).st.read_buf = initState.read_buf ∧
    (loopOnce (fun i => i) initState [70]).st.bcm = initState.bcm ∧
    (∀ j, (loopOnce (fun i => i) initState [70]).st.fb initState.read_buf j =
      initState.fb initState.read_buf j) ∧
    ((loopOnce (fun i => i) initState [70]).st.new_frame = false →
      (loopOnce (fun i => i) initState [70]).st.write_buf = initState.write_buf) :=
  c10_failure_leaves_display_untouched (fun i => i) initState [70] rfl (by decide)

/-- C8 as amended: the receive cursor never reaches the buffer size (so every
store `recv_buffer[recv_pos]` is in bounds), and a byte other than the newline
terminator and other than CR arriving with the accumulator full is treated as
an overflow: a single E and an empty accumulator.  (CR bytes are silently
ignored even when the buffer is full — see the counterexample.) -/
theorem c8_recv_never_overflows :
    (∀ (gt : Nat → Nat) (s : MState) (input : List Nat),
      s.recv.length < RECV_BUFFER_SIZE →
      (loopOnce gt s input).st.recv.length < RECV_BUFFER_SIZE) ∧
    (∀ (gt : Nat → Nat) (s : MState) (a : Nat),
      s.new_frame = false → s.binary_mode = false →
      s.recv.length = RECV_BUFFER_SIZE - 1 →
      a % 256 ≠ 10 → a % 256 ≠ 13 →
      loopOnce gt s [a] = ⟨{ s with recv := [] }, [69], []⟩) := by
  constructor
  · intro gt s input h
    have hRpos : 1 ≤ RECV_BUFFER_SIZE := by decide
    have htake_recv : (takeIfNew gt s).recv = s.recv := by
      simp only [takeIfNew]
      split <;> rfl
    have htlen : (takeIfNew gt s).recv.length = s.recv.length := by rw [htake_recv]
    simp only [loopOnce]
    split
    · change (takeIfNew gt s).recv.length < RECV_BUFFER_SIZE
      omega
    · split
      · obtain ⟨_, _, _, _, h5⟩ := binaryBranch_state (takeIfNew gt s) input
        rcases h5 with h5 | h5
        · rw [h5]
          omega
        · rw [h5]
          simpa using hRpos
      · have hb := textWhile_recv_bound 1024 (takeIfNew gt s) input (by omega)
        omega
  · intro gt s a hnf hbm hfull h10 h13
    simp only [loopOnce, takeIfNew_not_new gt s hnf]
    rw [if_neg (by simp), if_neg (by simp [hbm])]
    rw [show (1024 : Nat) = 1023 + 1 from rfl]
    simp only [textWhile]
    rw [if_neg (by intro hcon; rw [hfull] at hcon; exact absurd hcon.1 (by decide))]
    rw [if_neg h10, if_pos h13]
    rw [if_neg (by rw [hfull]; omega)]

/-- A CR byte in text mode is skipped outright, whatever the accumulator
holds: no output, no state change (main.cpp line 555). -/
theorem loopOnce_cr_ignored (gt : Nat → Nat) (s : MState)
    (hnf : s.new_frame = false) (hbm : s.binary_mode = false) :
    loopOnce gt s [13] = ⟨s, [], []⟩ := by
  simp only [loopOnce, takeIfNew_not_new gt s hnf]
  rw [if_neg (by simp), if_neg (by simp [hbm])]
  rw [show (1024 : Nat) = 1023 + 1 from rfl]
  simp only [textWhile]
  rw [if_neg (by intro hcon; exact absurd hcon.2.2 (by decide))]
  rw [if_neg (by decide), if_neg (by decide)]

/-- Counterexample to C8 as stated: a CR byte (0x0D, not the newline
terminator) arriving while the receive buffer is full is *not* treated as an
overflow — `loop` emits nothing (no E) and the accumulation is not reset (the
cursor stays at `RECV_BUFFER_SIZE - 1`), because main.cpp line 555 skips CR
before the overflow check. -/
theorem c8_counterexample_cr_ignored_when_full :
    (loopOnce (fun i => i) fullRecvState [13]).out = [] ∧
    (loopOnce (fun i => i) fullRecvState [13]).st.recv.length =
      RECV_BUFFER_SIZE - 1 := by
  rw [loopOnce_cr_ignored (fun i => i) fullRecvState rfl rfl]
  refine ⟨rfl, ?_⟩
  show fullRecvState.recv.length = RECV_BUFFER_SIZE - 1
  simp [fullRecvState]

/-- Witness for C8: the full accumulator rejects one more data byte. -/
theorem c8_recv_never_overflows_witness :
    (loopOnce (fun i => i) initState [65]).st.recv.length < RECV_BUFFER_SIZE ∧
    loopOnce (fun i => i) fullRecvState [66] =
      ⟨{ fullRecvState with recv := [] }, [69], []⟩ :=
  ⟨c8_recv_never_overflows.1 (fun i => i) initState [65] (by decide),
    c8_recv_never_overflows.2 (fun i => i) fullRecvState 66 rfl rfl (by simp [fullRecvState])
      (by decide) (by decide)⟩

/-! ## C9: the text-mode accept path is unreachable -/

/-- The expected-length pre-check can never equal the frame size: the receive
buffer holds at most `RECV_BUFFER_SIZE - 1 = 8423` symbols, whose decoded
length is at most 6317, while a frame is 8192 bytes; and with it, a newline
terminating any reachable non-empty accumulation always produces a single E
and never publishes. -/
theorem c9_text_accept_unreachable :
    (∀ recv : List Nat, recv.length ≤ RECV_BUFFER_SIZE - 1 →
      base64_decode_length recv ≠ FRAME_SIZE_RGB565) ∧
    (∀ (gt : Nat → Nat) (s : MState) (a : Nat),
      s.new_frame = false → s.binary_mode = false → 0 < s.recv.length →
      s.recv.length ≤ RECV_BUFFER_SIZE - 1 → a % 256 = 10 →
      loopOnce gt s [a] = ⟨{ s with recv := [] }, [69], []⟩) := by
  have hlen : ∀ recv : List Nat, recv.length ≤ RECV_BUFFER_SIZE - 1 →
      base64_decode_length recv ≠ FRAME_SIZE_RGB565 := by
    intro recv h
    have hR : RECV_BUFFER_SIZE = 8424 := by decide
    have hF : FRAME_SIZE_RGB565 = 8192 := by decide
    simp only [base64_decode_length, sub32]
    have hX : recv.length * 3 / 4 ≤ 6317 := by omega
    generalize recv.length * 3 / 4 = X at hX ⊢
    split_ifs <;> omega
  refine ⟨hlen, ?_⟩
  intro gt s a hnf hbm hpos hbound h10
  simp only [loopOnce, takeIfNew_not_new gt s hnf]
  rw [if_neg (by simp), if_neg (by simp [hbm])]
  rw [show (1024 : Nat) = 1023 + 1 from rfl]
  simp only [textWhile]
  rw [if_neg (by
    intro hcon
    rw [h10] at hcon
    exact absurd hcon.2.2 (by decide))]
  rw [if_pos h10, if_pos hpos]
  rw [if_neg (hlen s.recv hbound)]

/-- Witness for C9: a newline after the four-symbol accumulation draws an E. -/
theorem c9_text_accept_unreachable_witness :
    base64_decode_length fourByteState.recv ≠ FRAME_SIZE_RGB565 ∧
    loopOnce (fun i => i) fourByteState [10] =
      ⟨{ fourByteState with recv := [] }, [69], []⟩ :=
  ⟨c9_text_accept_unreachable.1 fourByteState.recv (by decide),
    c9_text_accept_unreachable.2 (fun i => i) fourByteState 10 rfl rfl (by decide)
      (by decide) (by decide)⟩

/-! ## C3: there is no byte-stuffed framing scheme in the code -/

/-- Counterexample to C3: feeding the byte-stuffed frame `[5, 0]` (code byte 5
then the 0x00 terminator) to the decoder from the power-on state terminates no
frame and resets nothing: both bytes are simply accumulated (`recv_pos` ends
at 2, not 0) and no acknowledgment or error is emitted. -/
theorem c3_counterexample_zero_not_terminator :
    (loopOnce (fun i => i) initState [5, 0]).st.recv = [5, 0] ∧
    (loopOnce (fun i => i) initState [5, 0]).out = [] ∧
    (loopOnce (fun i => i) initState [5, 0]).st.binary_mode = false := by
  refine ⟨?_, ?_, ?_⟩ <;> rfl

/-- C3 as amended: the firmware implements no byte-stuffed binary framing.  A
0x00 byte received in text mode is appended to the accumulator like any other
non-newline, non-CR byte — emitting nothing — except in the one case where it
is the second sentinel byte (previous byte `BINARY_MAGIC_0` alone in the
buffer), which instead enters the raw-binary mode. -/
theorem c3_zero_byte_is_ordinary_data (gt : Nat → Nat) (s : MState) (a : Nat)
    (hnf : s.new_frame = false) (hbm : s.binary_mode = false) (hz : a % 256 = 0)
    (hmagic : ¬(s.recv.length = 1 ∧ s.recv.getD 0 0 = BINARY_MAGIC_0))
    (hroom : s.recv.length < RECV_BUFFER_SIZE - 1) :
    loopOnce gt s [a] = ⟨{ s with recv := s.recv ++ [0] }, [], []⟩ := by
  simp only [loopOnce, takeIfNew_not_new gt s hnf]
  rw [if_neg (by simp), if_neg (by simp [hbm])]
  rw [show (1024 : Nat) = 1023 + 1 from rfl]
  simp only [textWhile]
  rw [if_neg (by
    intro hcon
    exact hmagic ⟨hcon.1, hcon.2.1⟩)]
  rw [if_neg (by rw [hz]; decide), if_pos (by rw [hz]; decide)]
  rw [if_pos hroom, hz]

/-- Witness for the amended C3: a 0x00 byte after a pending byte 7 is simply
accumulated. -/
theorem c3_zero_byte_is_ordinary_data_witness :
    loopOnce (fun i => i) oneByteState [0] =
      ⟨{ oneByteState with recv := oneByteState.recv ++ [0] }, [], []⟩ :=
  c3_zero_byte_is_ordinary_data (fun i => i) oneByteState 0 rfl rfl rfl
    (by decide) (by decide)

/-! ## C4: single-channel brightness ordering -/

/-- The red bit of a packed BCM byte: the other five channels only contribute
even summands. -/
theorem bcm_pack_and_one (r0 g0 b0 r1 g1 b1 bit : Nat) :
    bcm_pack r0 g0 b0 r1 g1 b1 bit &&& 1 =
      if r0 &&& (1 <<< bit) ≠ 0 then 1 else 0 := by
  unfold bcm_pack
  rw [Nat.and_one_is_mod]
  split_ifs <;> rfl

/-- Membership of bit `b` as an arithmetic bit extraction. -/
theorem indicator_and_two_pow (x b : Nat) :
    (if x &&& (1 <<< b) ≠ 0 then 1 else 0) = x / 2 ^ b % 2 := by
  have hpos := Nat.two_pow_pos b
  rw [Nat.one_shiftLeft, Nat.and_two_pow]
  cases h : x.testBit b with
  | false =>
    rw [Nat.testBit_to_div_mod] at h
    simp at h ⊢
    omega
  | true =>
    rw [Nat.testBit_to_div_mod] at h
    simp at h ⊢
    omega

/-- The plane bit of the red channel in terms of the gamma-corrected value. -/
theorem redBit_eq (gt : Nat → Nat) (v bit : Nat) (hv : v ≤ 31) (hb : bit < COLOR_DEPTH) :
    redBit gt v bit = if gt (8 * v) >>> 2 &&& (1 <<< bit) ≠ 0 then 1 else 0 := by
  have h1 : (v <<< 11) >>> 11 &&& 31 = v := by
    rw [Nat.shiftLeft_eq, Nat.shiftRight_eq_div_pow, and31_eq_mod]
    rw [Nat.mul_div_cancel v (by norm_num : (0:Nat) < 2 ^ 11)]
    omega
  have h2 : (v <<< 11) >>> 5 &&& 63 = 0 := by
    rw [Nat.shiftLeft_eq, Nat.shiftRight_eq_div_pow, and63_eq_mod]
    norm_num
    omega
  have h3 : (v <<< 11) &&& 31 = 0 := by
    rw [Nat.shiftLeft_eq, and31_eq_mod]
    norm_num
    omega
  have h5 : v <<< 3 = 8 * v := by
    rw [Nat.shiftLeft_eq]
    ring
  unfold redBit redPlanes convert_to_bcm
  rw [if_pos ⟨by decide, hb, by decide⟩]
  simp only [bcm_value, redFrame, redPixel, h1, h2, h3, h5, Nat.zero_shiftLeft]
  exact bcm_pack_and_one _ _ _ _ _ _ bit

/-- The BCM-weighted red brightness equals the gamma-corrected, depth-reduced
channel value. -/
theorem redWeight_eq (gt : Nat → Nat) (v : Nat) (hv : v ≤ 31)
    (hbound : ∀ i, i ≤ 255 → gt i < 256) :
    redPlaneWeight gt v = gt (8 * v) / 4 := by
  have hx : gt (8 * v) >>> 2 = gt (8 * v) / 4 := by
    rw [Nat.shiftRight_eq_div_pow]
  have hxlt : gt (8 * v) / 4 < 64 := by
    have := hbound (8 * v) (by omega)
    omega
  unfold redPlaneWeight
  rw [redBit_eq gt v 0 hv (by decide), redBit_eq gt v 1 hv (by decide),
    redBit_eq gt v 2 hv (by decide), redBit_eq gt v 3 hv (by decide),
    redBit_eq gt v 4 hv (by decide), redBit_eq gt v 5 hv (by decide)]
  rw [indicator_and_two_pow, indicator_and_two_pow, indicator_and_two_pow,
    indicator_and_two_pow, indicator_and_two_pow, indicator_and_two_pow]
  rw [hx]
  norm_num
  omega

/-- Counterexample to C4: with the exact real-arithmetic gamma-2.2 table, the
red input 8 lights two bit planes (packed value 3) while the larger input 9
lights only one (packed value 4): the count of lit planes decreases. -/
theorem c4_counterexample_plane_count_decreases :
    redPlaneCount init_gamma22 8 = 2 ∧ redPlaneCount init_gamma22 9 = 1 ∧
    ¬redPlaneCount init_gamma22 8 ≤ redPlaneCount init_gamma22 9 := by
  refine ⟨by decide, by decide, by decide⟩

/-- C4 as amended: it is the BCM-weighted brightness (each plane weighted by
its `2 ^ bit` display duration), not the raw count of lit planes, that is
non-decreasing in the channel input, for every monotone byte-valued gamma
table. -/
theorem c4_amended_weighted_brightness_monotone (gt : Nat → Nat)
    (hmono : ∀ i j, i ≤ j → j ≤ 255 → gt i ≤ gt j)
    (hbound : ∀ i, i ≤ 255 → gt i < 256)
    (v w : Nat) (hvw : v ≤ w) (hw : w ≤ 31) :
    redPlaneWeight gt v ≤ redPlaneWeight gt w := by
  rw [redWeight_eq gt v (by omega) hbound, redWeight_eq gt w hw hbound]
  exact Nat.div_le_div_right (hmono (8 * v) (8 * w) (by omega) (by omega))

/-- Witness for the amended C4 with the identity (gamma 1.0) table. -/
theorem c4_amended_weighted_brightness_monotone_witness :
    redPlaneWeight (fun i => i) 3 ≤ redPlaneWeight (fun i => i) 5 :=
  c4_amended_weighted_brightness_monotone (fun i => i)
    (fun i j h _ => h) (fun i h => by show i < 256; omega) 3 5 (by omega) (by omega)

/-! ## C7: the refresh cycle trace -/

theorem oeAfter_append (l1 l2 : List PanelOp) : ∀ oe : Bool,
    oeAfter oe (l1 ++ l2) = oeAfter (oeAfter oe l1) l2 := by
  induction l1 with
  | nil => intro oe; rfl
  | cons op rest ih =>
    intro oe
    cases op <;> simp only [List.cons_append, oeAfter] <;> exact ih _

theorem oeLatchSafe_append (l1 l2 : List PanelOp) : ∀ oe : Bool,
    oeLatchSafe oe (l1 ++ l2) =
      (oeLatchSafe oe l1 && oeLatchSafe (oeAfter oe l1) l2) := by
  induction l1 with
  | nil => intro oe; rfl
  | cons op rest ih =>
    intro oe
    cases op <;>
      simp only [List.cons_append, oeLatchSafe, oeAfter, Bool.and_assoc] <;>
      first
        | exact ih _
        | exact congrArg (fun b => !oe && b) (ih _)

theorem oeAfter_shift (f : Nat → PanelOp) (hf : ∀ x, ∃ b, f x = PanelOp.shiftByte b)
    (xs : List Nat) : ∀ oe : Bool, oeAfter oe (xs.map f) = oe := by
  induction xs with
  | nil => intro oe; rfl
  | cons x rest ih =>
    intro oe
    obtain ⟨b, hb⟩ := hf x
    simp only [List.map_cons, hb, oeAfter]
    exact ih oe

theorem oeLatchSafe_shift (f : Nat → PanelOp) (hf : ∀ x, ∃ b, f x = PanelOp.shiftByte b)
    (xs : List Nat) : ∀ oe : Bool, oeLatchSafe oe (xs.map f) = true := by
  induction xs with
  | nil => intro oe; rfl
  | cons x rest ih =>
    intro oe
    obtain ⟨b, hb⟩ := hf x
    simp only [List.map_cons, hb, oeLatchSafe]
    exact ih oe

/-- One refresh iteration is latch-safe and ends with output disabled. -/
theorem refreshIter_safe (planes : Nat → Nat → Nat → Nat) (bit row : Nat) :
    oeLatchSafe false (refreshIter planes bit row) = true ∧
    oeAfter false (refreshIter planes bit row) = false := by
  have hf : ∀ x, ∃ b, (fun x => PanelOp.shiftByte (planes row bit x)) x =
      PanelOp.shiftByte b := fun x => ⟨planes row bit x, rfl⟩
  constructor
  · show oeLatchSafe false (_ ++ _) = true
    rw [oeLatchSafe_append, oeLatchSafe_shift _ hf, oeAfter_shift _ hf]
    rfl
  · show oeAfter false (_ ++ _) = false
    rw [oeAfter_append, oeAfter_shift _ hf]
    rfl

theorem oe_flat_safe (f : Nat → List PanelOp)
    (h : ∀ x, oeLatchSafe false (f x) = true ∧ oeAfter false (f x) = false) :
    ∀ l : List Nat, oeLatchSafe false (l.flatMap f) = true ∧
      oeAfter false (l.flatMap f) = false := by
  intro l
  induction l with
  | nil => exact ⟨rfl, rfl⟩
  | cons x rest ih =>
    simp only [List.flatMap_cons]
    constructor
    · rw [oeLatchSafe_append, (h x).1, (h x).2, ih.1]
      rfl
    · rw [oeAfter_append, (h x).2, ih.2]

/-- One refresh iteration emits exactly the claimed sequence. -/
theorem refreshIter_eq_spec (planes : Nat → Nat → Nat → Nat) (bit row : Nat)
    (hrow : row < SCAN_ROWS) :
    refreshIter planes bit row = refreshIterSpec planes bit row := by
  have h16 : SCAN_ROWS = 16 := by decide
  have haddr : (row &&& 1) + 2 * (row >>> 1 &&& 1) + 4 * (row >>> 2 &&& 1) +
      8 * (row >>> 3 &&& 1) = row := by
    rw [Nat.and_one_is_mod, Nat.and_one_is_mod, Nat.and_one_is_mod, Nat.and_one_is_mod,
      Nat.shiftRight_eq_div_pow, Nat.shiftRight_eq_div_pow, Nat.shiftRight_eq_div_pow]
    norm_num
    omega
  unfold refreshIter refreshIterSpec set_row_address
  rw [haddr, Nat.one_shiftLeft]
  simp

/-- C7: every (bit, row) iteration of `hub75_refresh` emits exactly the
claimed operation sequence; the whole trace is those iterations with `bit`
outer over `[0, COLOR_DEPTH)` and `row` inner over `[0, SCAN_ROWS)`; and the
latch is never pulsed while output is enabled. -/
theorem c7_refresh_cycle (planes : Nat → Nat → Nat → Nat) :
    (∀ bit row, bit < COLOR_DEPTH → row < SCAN_ROWS →
      refreshIter planes bit row = refreshIterSpec planes bit row) ∧
    hub75_refresh planes =
      (List.range COLOR_DEPTH).flatMap (fun bit =>
        (List.range SCAN_ROWS).flatMap (fun row => refreshIterSpec planes bit row)) ∧
    oeLatchSafe false (hub75_refresh planes) = true := by
  refine ⟨fun bit row _ hrow => refreshIter_eq_spec planes bit row hrow, ?_, ?_⟩
  · unfold hub75_refresh
    apply List.flatMap_congr
    intro bit _
    apply List.flatMap_congr
    intro row hrow
    exact refreshIter_eq_spec planes bit row (List.mem_range.mp hrow)
  · exact (oe_flat_safe _ (fun bit => oe_flat_safe _
      (fun row => refreshIter_safe planes bit row) (List.range SCAN_ROWS)) _).1

/-- Witness for C7 with zeroed planes. -/
theorem c7_refresh_cycle_witness :
    refreshIter zeroPlanes 0 0 = refreshIterSpec zeroPlanes 0 0 ∧
    oeLatchSafe false (hub75_refresh zeroPlanes) = true :=
  ⟨(c7_refresh_cycle zeroPlanes).1 0 0 (by decide) (by decide),
    (c7_refresh_cycle zeroPlanes).2.2⟩
